import Mathlib

/-!
Shallow embedding of the face-hash example scripts
(`examples/examples-nodejs/faceHash.ts` and
`examples/examples-nodejs/faceValidationSystem.js`).

JavaScript numbers are modelled as exact rationals, with `Option ℚ` used
where an operation can produce a non-finite result (`0/0 = NaN`,
`x/0 = Infinity`); `none` stands for a non-finite value.  JavaScript
strings are modelled as Lean `String`s (lists of characters); the digests
the scripts handle are ASCII, where JS code units and characters agree.
-/

/-- JavaScript division of two finite numbers: `none` models the non-finite
results `NaN` (`0/0`) and `±Infinity` (`x/0`, `x ≠ 0`). -/
def jsDiv (a b : ℚ) : Option ℚ :=
  if b = 0 then none else some (a / b)

/-- The loop of `compareHashes`: the number of positions at which the two
character lists agree (the loop runs over the indices of the first string;
it is only reached when the lengths are equal). -/
def countMatches : List Char → List Char → Nat
  | a :: as, b :: bs => (if a = b then 1 else 0) + countMatches as bs
  | _, _ => 0

/-- `FaceHashGenerator.compareHashes` / `FaceDatabase.compareHashes` /
`MongoDBFaceDatabase.compareHashes` (the three copies are character-for-
character identical): returns `0` when the lengths differ, otherwise the
number of positionally matching characters divided by the common length
(`matches / hash1.length`, JavaScript division). -/
def compareHashes (hash1 hash2 : String) : Option ℚ :=
  if hash1.length ≠ hash2.length then some 0
  else jsDiv (countMatches hash1.data hash2.data) hash1.length

/-- JavaScript `ToInt32`, applied by the bitwise operators (`<<`, `&`):
wraps an integer into `[-2^31, 2^31)`. -/
def toInt32 (n : Int) : Int :=
  (n + 2147483648) % 4294967296 - 2147483648

/-- One iteration of the `generateSimpleHash` loop:
`hash = ((hash << 5) - hash) + char; hash = hash & hash`.  `hash << 5`
wraps to a 32-bit integer; the subtraction and addition are exact (their
magnitudes stay far below `2^53`); `hash & hash` is `ToInt32`. -/
def hashStep (h : Int) (c : Nat) : Int :=
  toInt32 (toInt32 (h * 32) - h + c)

/-- The 32-bit rolling hash of `generateSimpleHash`: the loop over
`descriptorString.charCodeAt(i)` starting from `hash = 0`. -/
def rollingHash (s : List Char) : Int :=
  s.foldl (fun h c => hashStep h c.toNat) 0

/-- Lower-case hexadecimal digit characters, as produced by
`Number.prototype.toString(16)`. -/
def hexDigitChar (n : Nat) : Char :=
  if n < 10 then Char.ofNat (48 + n) else Char.ofNat (87 + n)

/-- `Number.prototype.toString(16)` on a nonnegative integer: its base-16
digits, most significant first, in lower case (`"0"` for zero). -/
def natToHex (n : Nat) : String :=
  if n = 0 then "0" else String.mk ((Nat.digits 16 n).reverse.map hexDigitChar)

/-- `String.prototype.padStart(n, c)`: left-pads with `c` up to length `n`
(a string already at least `n` long is returned unchanged). -/
def padStart (s : String) (n : Nat) (c : Char) : String :=
  String.mk (List.replicate (n - s.data.length) c ++ s.data)

/-- `String.prototype.substring(0, n)`: the first `n` characters. -/
def jsSubstring0 (s : String) (n : Nat) : String :=
  String.mk (s.data.take n)

/-- JavaScript `%` (floating-point remainder) for a nonnegative dividend
and positive divisor — the only case the scripts use, always after
`Math.abs`.  Exact on the rationals. -/
def jsFmod (a b : ℚ) : ℚ :=
  a - b * (⌊a / b⌋ : ℚ)

/-- Modelled from the spec: the external collaborators of the digest
generator, which the repository does not implement — JavaScript number
formatting (`Number::toString`, radix 10 and radix 16, applied to the
descriptor's float32 entries read as doubles), IEEE-754 double
multiplication, the Node `crypto` SHA-256 and MD5 hex digests, and
`Buffer`'s base64 encoding.  The spec treats all of them as opaque
functions; every theorem below quantifies over them. -/
structure JSPrims where
  numToString : ℚ → String
  numToHexString : ℚ → String
  dmul : ℚ → ℚ → ℚ
  sha256Hex : String → String
  md5Hex : String → String
  base64 : String → String

/-- `Array.from(descriptor).join(',')`: the stringified feature vector. -/
def descriptorString (p : JSPrims) (d : List ℚ) : String :=
  String.intercalate "," (d.map p.numToString)

/-- One step of the `additionalHash` reduce:
`(Math.abs(val * 1000) % 256).toString(16).padStart(2, '0')`. -/
def valueSuffix (p : JSPrims) (v : ℚ) : String :=
  padStart (p.numToHexString (jsFmod |p.dmul v 1000| 256)) 2 '0'

/-- `FaceHashGenerator.generateSimpleHash`: the 8-hex-digit
`Math.abs(hash).toString(16).padStart(8, '0')` prefix from the 32-bit
rolling hash of the stringified descriptor, concatenated with the
`additionalHash` built from `descriptor.slice(0, 16)`. -/
def generateSimpleHash (p : JSPrims) (d : List ℚ) : String :=
  padStart (natToHex (rollingHash (descriptorString p d).data).natAbs) 8 '0'
    ++ String.join ((d.take 16).map (valueSuffix p))

/-- `FaceHashGenerator.generateSHA256Hash` (both copies): the SHA-256 hex
digest of the stringified descriptor. -/
def generateSHA256Hash (p : JSPrims) (d : List ℚ) : String :=
  p.sha256Hex (descriptorString p d)

/-- `FaceHashGenerator.generateMD5Hash`. -/
def generateMD5Hash (p : JSPrims) (d : List ℚ) : String :=
  p.md5Hex (descriptorString p d)

/-- `FaceHashGenerator.generateBase64Hash`. -/
def generateBase64Hash (p : JSPrims) (d : List ℚ) : String :=
  p.base64 (descriptorString p d)

/-- `FaceHashGenerator.generateHexHash`:
`Array.from(descriptor).map(val => Math.abs(val * 1000).toString(16).padStart(4, '0')).join('')`. -/
def generateHexHash (p : JSPrims) (d : List ℚ) : String :=
  String.join (d.map (fun v => padStart (p.numToHexString |p.dmul v 1000|) 4 '0'))

/-- The algorithm selector of `HashOptions.type`. -/
inductive HashType where
  | simple
  | sha256
  | md5
  | base64
  | hex
deriving DecidableEq

/-- `HashOptions`: algorithm selector plus optional output-length cap
(`none` models an absent `length`). -/
structure HashOptions where
  type : HashType
  length : Option Nat
deriving DecidableEq

/-- The `switch (options.type)` of `generateFaceHash` (the `default`
branch is unreachable for the typed union). -/
def naturalHash (p : JSPrims) (d : List ℚ) : HashType → String
  | .simple => generateSimpleHash p d
  | .sha256 => generateSHA256Hash p d
  | .md5 => generateMD5Hash p d
  | .base64 => generateBase64Hash p d
  | .hex => generateHexHash p d

/-- `FaceHashGenerator.generateFaceHash`: picks the algorithm, then
truncates via `hash.substring(0, options.length)` when
`options.length && hash.length > options.length` — note that a cap of `0`
is falsy in JavaScript and is ignored. -/
def generateFaceHash (p : JSPrims) (d : List ℚ) (o : HashOptions) : String :=
  let hash := naturalHash p d o.type
  match o.length with
  | none => hash
  | some l => if l ≠ 0 ∧ l < hash.length then jsSubstring0 hash l else hash

/-- A sample instantiation of the external primitives, used only to
exhibit concrete inputs in witnesses and counterexamples (the theorems
quantify over every `JSPrims`). -/
def refPrims : JSPrims where
  numToString q := toString q
  numToHexString _ := "0"
  dmul a b := a * b
  sha256Hex s := s
  md5Hex s := s
  base64 s := s

/-- A metadata value: the scripts store strings and numbers. -/
inductive MetaVal where
  | str (s : String)
  | num (q : ℚ)
deriving DecidableEq

/-- The record stored by `FaceDatabase.saveFaceHash`. -/
structure FaceRecord where
  userId : String
  hash : String
  metadata : List (String × MetaVal)
  createdAt : String
  lastUsed : String
deriving DecidableEq

/-- The in-memory store `this.faces = new Map()`: an insertion-ordered
association of user ids to records. -/
abbrev FaceDb := List (String × FaceRecord)

/-- `Map.prototype.get`: the value of the first (under the store invariant,
only) entry with the given key. -/
def mapGet : FaceDb → String → Option FaceRecord
  | [], _ => none
  | e :: rest, k => if e.1 = k then some e.2 else mapGet rest k

/-- `Map.prototype.set`: replaces the entry with the given key in place,
or appends a new entry when the key is absent. -/
def mapSet : FaceDb → String → FaceRecord → FaceDb
  | [], k, v => [(k, v)]
  | e :: rest, k, v => if e.1 = k then (k, v) :: rest else e :: mapSet rest k v

/-- `Map.prototype.delete`: removes the entry with the given key. -/
def mapDelete : FaceDb → String → FaceDb
  | [], _ => []
  | e :: rest, k => if e.1 = k then rest else e :: mapDelete rest k

/-- The keys of the store, in insertion order (`this.faces.keys()`). -/
def dbKeys (db : FaceDb) : List String :=
  db.map Prod.fst

/-- `FaceDatabase.saveFaceHash`: builds the record (with `createdAt` and
`lastUsed` set to the current time, passed explicitly) and `set`s it,
returning it.  Re-registering an identifier silently overwrites. -/
def saveFaceHash (db : FaceDb) (userId hash : String)
    (metadata : List (String × MetaVal)) (now : String) : FaceRecord × FaceDb :=
  let faceRecord : FaceRecord := ⟨userId, hash, metadata, now, now⟩
  (faceRecord, mapSet db userId faceRecord)

/-- `FaceDatabase.getFaceHash`: `this.faces.get(userId)`. -/
def getFaceHash (db : FaceDb) (userId : String) : Option FaceRecord :=
  mapGet db userId

/-- `FaceDatabase.removeUser`: `this.faces.delete(userId)`, which returns
whether an entry was removed. -/
def removeUser (db : FaceDb) (userId : String) : Bool × FaceDb :=
  ((mapGet db userId).isSome, mapDelete db userId)

/-- The in-place `storedRecord.lastUsed = new Date().toISOString()` of
`validateFaceHash`: updates the `lastUsed` field of the record `get`
returned (the first entry with the key), leaving every other field and
entry alone. -/
def touchLastUsed : FaceDb → String → String → FaceDb
  | [], _, _ => []
  | e :: rest, k, now =>
      if e.1 = k then (e.1, ⟨e.2.userId, e.2.hash, e.2.metadata, e.2.createdAt, now⟩) :: rest
      else e :: touchLastUsed rest k now

/-- The result object of `validateFaceHash`: the not-found branch returns
`{ valid: false, reason }`, the checked branch returns
`{ valid, similarity, threshold, reason }`. -/
inductive ValidationResult where
  | missing (reason : String)
  | checked (valid : Bool) (similarity : Option ℚ) (threshold : ℚ) (reason : String)
deriving DecidableEq

/-- The `valid` field of a validation result. -/
def ValidationResult.valid : ValidationResult → Bool
  | .missing _ => false
  | .checked v _ _ _ => v

/-- JavaScript `similarity >= threshold`: `false` when the similarity is
`NaN` (modelled by `none`). -/
def simGE (s : Option ℚ) (t : ℚ) : Bool :=
  match s with
  | none => false
  | some q => decide (t ≤ q)

/-- `FaceDatabase.validateFaceHash`: looks the user up, compares the
stored digest with the input digest, and on a valid result updates the
stored record's `lastUsed`. -/
def validateFaceHash (db : FaceDb) (userId inputHash : String) (threshold : ℚ)
    (now : String) : ValidationResult × FaceDb :=
  match mapGet db userId with
  | none => (.missing "Usuário não encontrado", db)
  | some storedRecord =>
      let similarity := compareHashes storedRecord.hash inputHash
      let isValid := simGE similarity threshold
      (.checked isValid similarity threshold
         (if isValid then "Hash válido" else "Hash não corresponde"),
       if isValid then touchLastUsed db userId now else db)

/-- The default threshold of `validateFaceHash(userId, inputHash, threshold = 0.8)`. -/
def defaultThreshold : ℚ := 4 / 5

/-- `validateFaceHash` called without an explicit threshold. -/
def validateFaceHashDefault (db : FaceDb) (userId inputHash now : String) :
    ValidationResult × FaceDb :=
  validateFaceHash db userId inputHash defaultThreshold now

/-- A stored document of the MongoDB collection, as read by
`findUserByHash` (`userId`, `hash`, `metadata` are the fields it uses). -/
structure StoredUser where
  userId : String
  hash : String
  metadata : List (String × MetaVal)
deriving DecidableEq

/-- The object `findUserByHash` returns on a match. -/
structure MatchResult where
  userId : String
  similarity : Option ℚ
  metadata : List (String × MetaVal)
deriving DecidableEq

/-- `MongoDBFaceDatabase.findUserByHash`: scans the collection in order,
compares each stored digest against the input digest, and returns the
first user whose similarity reaches the threshold (`null` when none
does). -/
def findUserByHash (users : List StoredUser) (inputHash : String) (threshold : ℚ) :
    Option MatchResult :=
  match users with
  | [] => none
  | u :: rest =>
      let similarity := compareHashes u.hash inputHash
      if simGE similarity threshold then some ⟨u.userId, similarity, u.metadata⟩
      else findUserByHash rest inputHash threshold

/-- The external face-detection result: the descriptor (float32 feature
vector, entries as exact rationals) and the detection score. -/
structure Detection where
  descriptor : List ℚ
  score : ℚ
deriving DecidableEq

/-- `FaceHashGenerator.generateValidationHash`: the SHA-256 digest. -/
def generateValidationHash (p : JSPrims) (d : List ℚ) : String :=
  generateSHA256Hash p d

/-- The message of the error thrown when the detector reports no face. -/
def noFaceMsg : String := "Nenhuma face detectada na imagem"

/-- `FaceValidationSystem.registerUser`, with the external detector's
answer passed in (`none` = no face detected): on `none` the thrown error
surfaces to the caller (`Except.error`) and the store is untouched;
otherwise the validation hash is generated and saved. -/
def registerUser (p : JSPrims) (db : FaceDb) (userId : String)
    (detection : Option Detection) (metadata : List (String × MetaVal))
    (now : String) : Except String FaceRecord × FaceDb :=
  match detection with
  | none => (Except.error noFaceMsg, db)
  | some result =>
      let hash := generateValidationHash p result.descriptor
      let md := metadata ++
        [("descriptorLength", MetaVal.num result.descriptor.length),
         ("confidence", MetaVal.num result.score)]
      let sv := saveFaceHash db userId hash md now
      (Except.ok sv.1, sv.2)

/-- `FaceValidationSystem.validateUser`, with the external detector's
answer passed in: on `none` the thrown error surfaces to the caller and
the store is untouched; otherwise the input digest is validated against
the store at the default threshold. -/
def validateUser (p : JSPrims) (db : FaceDb) (userId : String)
    (detection : Option Detection) (now : String) :
    Except String ValidationResult × FaceDb :=
  match detection with
  | none => (Except.error noFaceMsg, db)
  | some result =>
      let inputHash := generateValidationHash p result.descriptor
      let v := validateFaceHashDefault db userId inputHash now
      (Except.ok v.1, v.2)

/-- A store operation, for stating the unique-key invariant over
arbitrary operation sequences. -/
inductive DbOp where
  | save (userId hash : String) (metadata : List (String × MetaVal)) (now : String)
  | remove (userId : String)
  | validate (userId inputHash : String) (threshold : ℚ) (now : String)

/-- The effect of one operation on the store. -/
def applyOp (db : FaceDb) : DbOp → FaceDb
  | .save userId hash metadata now => (saveFaceHash db userId hash metadata now).2
  | .remove userId => (removeUser db userId).2
  | .validate userId inputHash threshold now =>
      (validateFaceHash db userId inputHash threshold now).2

/-- Runs a sequence of store operations. -/
def runOps (db : FaceDb) (ops : List DbOp) : FaceDb :=
  ops.foldl applyOp db

lemma countMatches_le (l1 l2 : List Char) : countMatches l1 l2 ≤ l1.length := by
  induction l1 generalizing l2 with
  | nil => simp [countMatches]
  | cons a as ih =>
    cases l2 with
    | nil => simp [countMatches]
    | cons b bs =>
      have := ih bs
      by_cases hab : a = b <;> simp [countMatches, hab] <;> omega

lemma countMatches_self (l : List Char) : countMatches l l = l.length := by
  induction l with
  | nil => rfl
  | cons a as ih => simp [countMatches, ih]; omega

lemma string_length_data (s : String) : s.data.length = s.length := rfl

/-- C2: for every pair of digest strings whose lengths differ,
`compareHashes` returns `0` (the function takes the early-return branch and
never inspects a character). -/
theorem compareHashes_length_mismatch (h1 h2 : String)
    (h : h1.length ≠ h2.length) : compareHashes h1 h2 = some 0 := by
  unfold compareHashes
  rw [if_pos h]

/-- Witness for C2 at the concrete pair `("a", "")`. -/
theorem compareHashes_length_mismatch_witness :
    ("a" : String).length ≠ ("" : String).length ∧ compareHashes "a" "" = some 0 :=
  ⟨by decide, compareHashes_length_mismatch "a" "" (by decide)⟩

/-- C1 (amended): for every pair of digest strings of equal *nonzero*
length, `compareHashes` returns the count of positionally matching
characters divided by the common length, a rational in `[0, 1]`.  (On two
empty strings the code computes `0/0 = NaN`, see the counterexample.) -/
theorem compareHashes_equal_length (h1 h2 : String)
    (hlen : h1.length = h2.length) (hpos : 0 < h1.length) :
    compareHashes h1 h2 =
      some ((countMatches h1.data h2.data : ℚ) / (h1.length : ℚ))
    ∧ 0 ≤ ((countMatches h1.data h2.data : ℚ) / (h1.length : ℚ))
    ∧ ((countMatches h1.data h2.data : ℚ) / (h1.length : ℚ)) ≤ 1 := by
  refine ⟨?_, ?_, ?_⟩
  · unfold compareHashes jsDiv
    rw [if_neg (by simp [hlen]), if_neg (by exact_mod_cast Nat.pos_iff_ne_zero.mp hpos)]
  · exact div_nonneg (by positivity) (by positivity)
  · rw [div_le_one (by exact_mod_cast hpos)]
    exact_mod_cast (string_length_data h1) ▸ countMatches_le h1.data h2.data

/-- Witness for C1 (amended) at the concrete pair `("ab", "cb")`:
similarity `1/2`. -/
theorem compareHashes_equal_length_witness :
    ("ab" : String).length = ("cb" : String).length ∧ 0 < ("ab" : String).length ∧
      (compareHashes "ab" "cb" =
          some ((countMatches ("ab" : String).data ("cb" : String).data : ℚ) /
            (("ab" : String).length : ℚ))
        ∧ 0 ≤ ((countMatches ("ab" : String).data ("cb" : String).data : ℚ) /
            (("ab" : String).length : ℚ))
        ∧ ((countMatches ("ab" : String).data ("cb" : String).data : ℚ) /
            (("ab" : String).length : ℚ)) ≤ 1) :=
  ⟨rfl, by decide, compareHashes_equal_length "ab" "cb" rfl (by decide)⟩

/-- Counterexample to C1 as stated: on the pair of empty strings the code
computes `matches / hash1.length = 0/0`, which in JavaScript is `NaN` —
not a fraction in `[0, 1]`. -/
theorem compareHashes_empty_counterexample :
    ¬ ∃ q : ℚ, compareHashes "" "" = some q ∧ 0 ≤ q ∧ q ≤ 1 := by
  rintro ⟨q, hq, -, -⟩
  rw [show compareHashes "" "" = none from by decide] at hq
  exact Option.noConfusion hq

/-- C3: for every digest string of nonzero length, `compareHashes d d = 1`
(every position matches, and `length / length = 1`). -/
theorem compareHashes_self_eq_one (d : String) (h : 0 < d.length) :
    compareHashes d d = some 1 := by
  unfold compareHashes jsDiv
  rw [if_neg (by simp), if_neg (by exact_mod_cast Nat.pos_iff_ne_zero.mp h)]
  rw [countMatches_self, string_length_data]
  rw [div_self (by exact_mod_cast Nat.pos_iff_ne_zero.mp h)]

/-- Witness for C3 at the concrete digest `"abc"`. -/
theorem compareHashes_self_eq_one_witness :
    0 < ("abc" : String).length ∧ compareHashes "abc" "abc" = some 1 :=
  ⟨by decide, compareHashes_self_eq_one "abc" (by decide)⟩

/-- C4 (amended): for every descriptor, algorithm type, and *nonzero* cap
`L` strictly below the length of the untruncated digest, `generateFaceHash`
with `length = L` is the first `L` characters of the untruncated digest.
(A cap of `0` is falsy in JavaScript and leaves the digest untruncated,
see the counterexample.) -/
theorem generateFaceHash_truncates (p : JSPrims) (d : List ℚ) (t : HashType) (L : Nat)
    (h1 : 1 ≤ L) (h2 : L < (generateFaceHash p d ⟨t, none⟩).length) :
    generateFaceHash p d ⟨t, some L⟩ =
      jsSubstring0 (generateFaceHash p d ⟨t, none⟩) L := by
  have hnat : generateFaceHash p d ⟨t, none⟩ = naturalHash p d t := rfl
  rw [hnat] at h2 ⊢
  show (if L ≠ 0 ∧ L < (naturalHash p d t).length
    then jsSubstring0 (naturalHash p d t) L else naturalHash p d t) = _
  rw [if_pos ⟨by omega, h2⟩]

/-- Witness for C4 (amended): the simple digest of the empty descriptor is
`"00000000"`, and a cap of `3` yields its first three characters. -/
theorem generateFaceHash_truncates_witness :
    1 ≤ 3 ∧ 3 < (generateFaceHash refPrims [] ⟨HashType.simple, none⟩).length ∧
      generateFaceHash refPrims [] ⟨HashType.simple, some 3⟩ =
        jsSubstring0 (generateFaceHash refPrims [] ⟨HashType.simple, none⟩) 3 :=
  ⟨by decide, by decide,
   generateFaceHash_truncates refPrims [] HashType.simple 3 (by decide) (by decide)⟩

/-- Counterexample to C4 as stated: a cap of `L = 0` is strictly below the
natural length (`8` here), yet `options.length` is falsy for `0`, so the
code skips truncation and returns the whole digest instead of the first
`0` characters. -/
theorem generateFaceHash_zero_cap_counterexample :
    0 < (generateFaceHash refPrims [] ⟨HashType.simple, none⟩).length ∧
      generateFaceHash refPrims [] ⟨HashType.simple, some 0⟩ ≠
        jsSubstring0 (generateFaceHash refPrims [] ⟨HashType.simple, none⟩) 0 := by
  decide

/-- C5: for a fixed algorithm selector (and fixed external primitives),
the digest generator is a pure function of the feature vector — the
embedding of `generateFaceHash` and `generateSHA256Hash` reads nothing but
its arguments, so two calls on the same descriptor agree. -/
theorem digestGenerator_deterministic (p : JSPrims) (d1 d2 : List ℚ)
    (o : HashOptions) (h : d1 = d2) :
    generateFaceHash p d1 o = generateFaceHash p d2 o ∧
      generateSHA256Hash p d1 = generateSHA256Hash p d2 := by
  subst h
  exact ⟨rfl, rfl⟩

/-- Witness for C5 at the concrete descriptor `[1]`. -/
theorem digestGenerator_deterministic_witness :
    ([(1 : ℚ)] = [(1 : ℚ)]) ∧
      (generateFaceHash refPrims [1] ⟨HashType.simple, none⟩ =
          generateFaceHash refPrims [1] ⟨HashType.simple, none⟩ ∧
        generateSHA256Hash refPrims [1] = generateSHA256Hash refPrims [1]) :=
  ⟨rfl, digestGenerator_deterministic refPrims [1] [1] ⟨HashType.simple, none⟩ rfl⟩

lemma toInt32_bounds (n : Int) :
    -2147483648 ≤ toInt32 n ∧ toInt32 n < 2147483648 := by
  unfold toInt32
  have h1 : 0 ≤ (n + 2147483648) % 4294967296 :=
    Int.emod_nonneg _ (by norm_num)
  have h2 : (n + 2147483648) % 4294967296 < 4294967296 :=
    Int.emod_lt_of_pos _ (by norm_num)
  omega

lemma rollingHash_aux (s : List Char) :
    ∀ h : Int, -2147483648 ≤ h → h < 2147483648 →
      -2147483648 ≤ s.foldl (fun a c => hashStep a c.toNat) h ∧
        s.foldl (fun a c => hashStep a c.toNat) h ≤ 2147483648 := by
  induction s with
  | nil =>
      intro h hl hu
      simp only [List.foldl_nil]
      exact ⟨hl, by omega⟩
  | cons c cs ih =>
      intro h hl hu
      simp only [List.foldl_cons]
      have hb := toInt32_bounds (toInt32 (h * 32) - h + c.toNat)
      exact ih _ hb.1 hb.2

lemma rollingHash_natAbs_le (s : List Char) :
    (rollingHash s).natAbs ≤ 2147483648 := by
  have h := rollingHash_aux s 0 (by norm_num) (by norm_num)
  unfold rollingHash
  omega

lemma natToHex_length_le (n : Nat) (hn : n < 4294967296) :
    (natToHex n).length ≤ 8 := by
  unfold natToHex
  split
  · decide
  · next h =>
    show ((Nat.digits 16 n).reverse.map hexDigitChar).length ≤ 8
    rw [List.length_map, List.length_reverse, Nat.digits_len 16 n (by norm_num) h]
    have h16 : (16 : ℕ) ^ 8 = 4294967296 := by norm_num
    have hlog : Nat.log 16 n < 8 := Nat.log_lt_of_lt_pow h (by omega)
    omega

lemma hexDigitChar_mem :
    ∀ m, m < 16 → hexDigitChar m ∈ ("0123456789abcdef").data := by
  decide

lemma natToHex_chars (n : Nat) :
    ∀ ch ∈ (natToHex n).data, ch ∈ ("0123456789abcdef").data := by
  intro ch hch
  unfold natToHex at hch
  split at hch
  · rw [show ("0" : String).data = ['0'] from rfl] at hch
    rw [List.mem_singleton.mp hch]
    decide
  · rw [show (String.mk ((Nat.digits 16 n).reverse.map hexDigitChar)).data =
      (Nat.digits 16 n).reverse.map hexDigitChar from rfl] at hch
    obtain ⟨d, hd, rfl⟩ := List.mem_map.mp hch
    exact hexDigitChar_mem d (Nat.digits_lt_base (by norm_num) (List.mem_reverse.mp hd))

lemma padStart_data (s : String) (n : Nat) (c : Char) :
    (padStart s n c).data = List.replicate (n - s.data.length) c ++ s.data := rfl

lemma padStart_length (s : String) (n : Nat) (c : Char) (h : s.length ≤ n) :
    (padStart s n c).length = n := by
  show (List.replicate (n - s.data.length) c ++ s.data).length = n
  rw [List.length_append, List.length_replicate]
  have hd : s.data.length = s.length := rfl
  omega

/-- C9: for every descriptor, the simple digest is the concatenation of a
prefix — `Math.abs` of the 32-bit rolling hash of the stringified vector,
rendered as exactly 8 lower-case hex digits — and the suffix derived from
the first 16 descriptor values; and re-running on the same vector
reproduces the exact same string.  (In particular this holds for the
descriptor `[0.1, -0.2, 0.3]`.) -/
theorem generateSimpleHash_structure (p : JSPrims) (d : List ℚ) :
    ∃ pre suf : String,
      generateSimpleHash p d = pre ++ suf
      ∧ pre = padStart (natToHex (rollingHash (descriptorString p d).data).natAbs) 8 '0'
      ∧ suf = String.join ((d.take 16).map (valueSuffix p))
      ∧ pre.length = 8
      ∧ (∀ ch ∈ pre.data, ch ∈ ("0123456789abcdef").data)
      ∧ generateSimpleHash p d = generateSimpleHash p d := by
  refine ⟨padStart (natToHex (rollingHash (descriptorString p d).data).natAbs) 8 '0',
    String.join ((d.take 16).map (valueSuffix p)), rfl, rfl, rfl, ?_, ?_, rfl⟩
  · refine padStart_length _ _ _ (natToHex_length_le _ ?_)
    have := rollingHash_natAbs_le (descriptorString p d).data
    omega
  · intro ch hch
    rw [padStart_data] at hch
    rcases List.mem_append.mp hch with h | h
    · rw [List.eq_of_mem_replicate h]
      decide
    · exact natToHex_chars _ ch h

lemma simGE_true_iff (s : Option ℚ) (t : ℚ) :
    simGE s t = true ↔ ∃ q : ℚ, s = some q ∧ t ≤ q := by
  cases s <;> simp [simGE]

lemma simGE_false_iff (s : Option ℚ) (t : ℚ) :
    simGE s t = false ↔ ∀ q : ℚ, s = some q → q < t := by
  cases s <;> simp [simGE]

/-- C6: `findUserByHash` returns `null` exactly when no stored digest
reaches the threshold, and a returned match is built from the *first*
stored user (in collection order) whose similarity is at or above the
threshold, every earlier user falling below it. -/
theorem findUserByHash_spec (users : List StoredUser) (inputHash : String) (t : ℚ) :
    (findUserByHash users inputHash t = none ↔
      ∀ u ∈ users, ∀ q : ℚ, compareHashes u.hash inputHash = some q → q < t)
    ∧ (∀ r, findUserByHash users inputHash t = some r →
        ∃ l1 u l2, users = l1 ++ u :: l2
          ∧ (∃ q : ℚ, compareHashes u.hash inputHash = some q ∧ t ≤ q)
          ∧ (∀ v ∈ l1, ∀ q : ℚ, compareHashes v.hash inputHash = some q → q < t)
          ∧ r = ⟨u.userId, compareHashes u.hash inputHash, u.metadata⟩) := by
  induction users with
  | nil =>
      constructor
      · simp [findUserByHash]
      · intro r hr
        simp [findUserByHash] at hr
  | cons u rest ih =>
      cases hcond : simGE (compareHashes u.hash inputHash) t with
      | true =>
          have hstep : findUserByHash (u :: rest) inputHash t =
              some ⟨u.userId, compareHashes u.hash inputHash, u.metadata⟩ := by
            simp [findUserByHash, hcond]
          constructor
          · constructor
            · intro h
              rw [hstep] at h
              exact Option.noConfusion h
            · intro hall
              exfalso
              obtain ⟨q, hq, hle⟩ := (simGE_true_iff _ _).mp hcond
              exact absurd (hall u (by simp) q hq) (not_lt.mpr hle)
          · intro r hr
            rw [hstep] at hr
            refine ⟨[], u, rest, rfl, (simGE_true_iff _ _).mp hcond, by simp, ?_⟩
            exact (Option.some.inj hr).symm
      | false =>
          have hstep : findUserByHash (u :: rest) inputHash t =
              findUserByHash rest inputHash t := by
            simp [findUserByHash, hcond]
          constructor
          · rw [hstep, ih.1]
            constructor
            · intro h v hv q hq
              rcases List.mem_cons.mp hv with rfl | hv'
              · exact (simGE_false_iff _ _).mp hcond q hq
              · exact h v hv' q hq
            · intro h v hv q hq
              exact h v (List.mem_cons_of_mem _ hv) q hq
          · intro r hr
            rw [hstep] at hr
            obtain ⟨l1, w, l2, heq, hsim, hlow, hres⟩ := ih.2 r hr
            refine ⟨u :: l1, w, l2, by rw [heq, List.cons_append], hsim, ?_, hres⟩
            intro v hv q hq
            rcases List.mem_cons.mp hv with rfl | hv'
            · exact (simGE_false_iff _ _).mp hcond q hq
            · exact hlow v hv' q hq

/-- Witness for C6: on a two-user store the scan skips the first user
(similarity `0`) and returns the second (similarity `1`). -/
theorem findUserByHash_spec_witness :
    ∃ l1 u l2,
      ([⟨"bob", "xy", []⟩, ⟨"alice", "ab", []⟩] : List StoredUser) = l1 ++ u :: l2
      ∧ (∃ q : ℚ, compareHashes u.hash "ab" = some q ∧ (4 / 5 : ℚ) ≤ q)
      ∧ (∀ v ∈ l1, ∀ q : ℚ, compareHashes v.hash "ab" = some q → q < (4 / 5 : ℚ))
      ∧ (⟨"alice", some 1, []⟩ : MatchResult) =
          ⟨u.userId, compareHashes u.hash "ab", u.metadata⟩ :=
  (findUserByHash_spec [⟨"bob", "xy", []⟩, ⟨"alice", "ab", []⟩] "ab" (4 / 5)).2
    ⟨"alice", some 1, []⟩
    (by
      norm_num [findUserByHash, compareHashes, jsDiv, countMatches, simGE,
        show ("xy" : String).length = 2 from rfl, show ("ab" : String).length = 2 from rfl]
      intro h
      simp at h
      norm_num at h)

lemma dbKeys_cons (e : String × FaceRecord) (rest : FaceDb) :
    dbKeys (e :: rest) = e.1 :: dbKeys rest := rfl

lemma mapGet_mapSet_self (db : FaceDb) (k : String) (v : FaceRecord) :
    mapGet (mapSet db k v) k = some v := by
  induction db with
  | nil => simp [mapSet, mapGet]
  | cons e rest ih =>
      by_cases he : e.1 = k
      · simp [mapSet, he, mapGet]
      · simp [mapSet, he, mapGet, ih]

lemma dbKeys_mapSet_mem (db : FaceDb) (k : String) (v : FaceRecord) :
    ∀ a ∈ dbKeys (mapSet db k v), a ∈ dbKeys db ∨ a = k := by
  induction db with
  | nil =>
      intro a ha
      simp [mapSet, dbKeys] at ha
      exact Or.inr ha
  | cons e rest ih =>
      intro a ha
      by_cases he : e.1 = k
      · rw [show mapSet (e :: rest) k v = (k, v) :: rest from by simp [mapSet, he]] at ha
        rw [dbKeys_cons] at ha
        rcases List.mem_cons.mp ha with rfl | h
        · exact Or.inr rfl
        · exact Or.inl (by rw [dbKeys_cons]; exact List.mem_cons_of_mem _ h)
      · rw [show mapSet (e :: rest) k v = e :: mapSet rest k v from by simp [mapSet, he]] at ha
        rw [dbKeys_cons] at ha
        rcases List.mem_cons.mp ha with rfl | h
        · exact Or.inl (by rw [dbKeys_cons]; exact List.mem_cons_self _ _)
        · rcases ih a h with h' | h'
          · exact Or.inl (by rw [dbKeys_cons]; exact List.mem_cons_of_mem _ h')
          · exact Or.inr h'

lemma dbKeys_mapSet_nodup (db : FaceDb) (k : String) (v : FaceRecord)
    (h : (dbKeys db).Nodup) : (dbKeys (mapSet db k v)).Nodup := by
  induction db with
  | nil => simp [mapSet, dbKeys]
  | cons e rest ih =>
      rw [dbKeys_cons, List.nodup_cons] at h
      by_cases he : e.1 = k
      · rw [show mapSet (e :: rest) k v = (k, v) :: rest from by simp [mapSet, he]]
        rw [dbKeys_cons, List.nodup_cons]
        exact ⟨he ▸ h.1, h.2⟩
      · rw [show mapSet (e :: rest) k v = e :: mapSet rest k v from by simp [mapSet, he]]
        rw [dbKeys_cons, List.nodup_cons]
        refine ⟨?_, ih h.2⟩
        intro hmem
        rcases dbKeys_mapSet_mem rest k v e.1 hmem with h' | h'
        · exact h.1 h'
        · exact he h'

lemma dbKeys_mapDelete_mem (db : FaceDb) (k : String) :
    ∀ a ∈ dbKeys (mapDelete db k), a ∈ dbKeys db := by
  induction db with
  | nil =>
      intro a ha
      simpa [mapDelete] using ha
  | cons e rest ih =>
      intro a ha
      by_cases he : e.1 = k
      · rw [show mapDelete (e :: rest) k = rest from by simp [mapDelete, he]] at ha
        rw [dbKeys_cons]
        exact List.mem_cons_of_mem _ ha
      · rw [show mapDelete (e :: rest) k = e :: mapDelete rest k from by simp [mapDelete, he]] at ha
        rw [dbKeys_cons] at ha ⊢
        rcases List.mem_cons.mp ha with rfl | h
        · exact List.mem_cons_self _ _
        · exact List.mem_cons_of_mem _ (ih a h)

lemma dbKeys_mapDelete_nodup (db : FaceDb) (k : String)
    (h : (dbKeys db).Nodup) : (dbKeys (mapDelete db k)).Nodup := by
  induction db with
  | nil => simpa [mapDelete] using h
  | cons e rest ih =>
      rw [dbKeys_cons, List.nodup_cons] at h
      by_cases he : e.1 = k
      · rw [show mapDelete (e :: rest) k = rest from by simp [mapDelete, he]]
        exact h.2
      · rw [show mapDelete (e :: rest) k = e :: mapDelete rest k from by simp [mapDelete, he]]
        rw [dbKeys_cons, List.nodup_cons]
        exact ⟨fun hmem => h.1 (dbKeys_mapDelete_mem rest k e.1 hmem), ih h.2⟩

lemma dbKeys_touch (db : FaceDb) (k now : String) :
    dbKeys (touchLastUsed db k now) = dbKeys db := by
  induction db with
  | nil => rfl
  | cons e rest ih =>
      by_cases he : e.1 = k
      · simp [touchLastUsed, he, dbKeys_cons]
      · simp [touchLastUsed, he, dbKeys_cons, ih]

lemma validate_db_cases (db : FaceDb) (userId inputHash : String) (t : ℚ) (now : String) :
    (validateFaceHash db userId inputHash t now).2 = db ∨
      (validateFaceHash db userId inputHash t now).2 = touchLastUsed db userId now := by
  unfold validateFaceHash
  cases hm : mapGet db userId with
  | none => exact Or.inl rfl
  | some stored =>
      cases hb : simGE (compareHashes stored.hash inputHash) t
      · exact Or.inl (by simp [hb])
      · exact Or.inr (by simp [hb])

lemma applyOp_nodup (db : FaceDb) (op : DbOp) (h : (dbKeys db).Nodup) :
    (dbKeys (applyOp db op)).Nodup := by
  cases op with
  | save userId hash metadata now => exact dbKeys_mapSet_nodup db userId _ h
  | remove userId => exact dbKeys_mapDelete_nodup db userId h
  | validate userId inputHash t now =>
      show (dbKeys (validateFaceHash db userId inputHash t now).2).Nodup
      rcases validate_db_cases db userId inputHash t now with he | he <;> rw [he]
      · exact h
      · rw [dbKeys_touch]
        exact h

lemma runOps_nodup (ops : List DbOp) :
    ∀ db : FaceDb, (dbKeys db).Nodup → (dbKeys (runOps db ops)).Nodup := by
  induction ops with
  | nil => intro db h; exact h
  | cons op ops ih => intro db h; exact ih _ (applyOp_nodup db op h)

/-- C7: the store keeps at most one record per identifier — starting from
a store whose keys are distinct, every sequence of operations (save,
remove, validate) preserves distinctness, so re-registering overwrites
rather than duplicating; and a `get` right after a `save` returns the
newly stored record (digest and metadata included). -/
theorem faceDb_unique_key (db : FaceDb) (ops : List DbOp) (userId hash : String)
    (metadata : List (String × MetaVal)) (now : String)
    (hnd : (dbKeys db).Nodup) :
    (dbKeys (runOps db ops)).Nodup
    ∧ getFaceHash (saveFaceHash db userId hash metadata now).2 userId =
        some (saveFaceHash db userId hash metadata now).1 :=
  ⟨runOps_nodup ops db hnd, mapGet_mapSet_self db userId _⟩

/-- Witness for C7: registering `"a"` twice from the empty store keeps a
single record, and `get` after `save` returns the saved record. -/
theorem faceDb_unique_key_witness :
    (dbKeys ([] : FaceDb)).Nodup ∧
      ((dbKeys (runOps []
          [DbOp.save "a" "h1" [] "t0", DbOp.save "a" "h2" [] "t1"])).Nodup
        ∧ getFaceHash (saveFaceHash [] "a" "h1" [] "t0").2 "a" =
            some (saveFaceHash [] "a" "h1" [] "t0").1) :=
  ⟨List.nodup_nil,
   faceDb_unique_key [] [DbOp.save "a" "h1" [] "t0", DbOp.save "a" "h2" [] "t1"]
     "a" "h1" [] "t0" List.nodup_nil⟩

/-- C8: when the external detector reports no face, both registration and
validation surface the distinct "no face detected" error to the caller
and leave the store untouched — nothing is stored or compared. -/
theorem noFace_surfaces (p : JSPrims) (db : FaceDb) (userId : String)
    (metadata : List (String × MetaVal)) (now : String) :
    registerUser p db userId none metadata now = (Except.error noFaceMsg, db)
    ∧ validateUser p db userId none now = (Except.error noFaceMsg, db) :=
  ⟨rfl, rfl⟩

lemma mapGet_touch_self (db : FaceDb) (k now : String) (r : FaceRecord)
    (h : mapGet db k = some r) :
    mapGet (touchLastUsed db k now) k =
      some ⟨r.userId, r.hash, r.metadata, r.createdAt, now⟩ := by
  induction db with
  | nil => simp [mapGet] at h
  | cons e rest ih =>
      by_cases he : e.1 = k
      · rw [show mapGet (e :: rest) k = some e.2 from by simp [mapGet, he]] at h
        obtain rfl := Option.some.inj h
        simp [touchLastUsed, he, mapGet]
      · rw [show mapGet (e :: rest) k = mapGet rest k from by simp [mapGet, he]] at h
        rw [show touchLastUsed (e :: rest) k now = e :: touchLastUsed rest k now
          from by simp [touchLastUsed, he]]
        rw [show mapGet (e :: touchLastUsed rest k now) k = mapGet (touchLastUsed rest k now) k
          from by simp [mapGet, he]]
        exact ih h

lemma mapGet_touch_other (db : FaceDb) (k kp now : String) (h : kp ≠ k) :
    mapGet (touchLastUsed db k now) kp = mapGet db kp := by
  induction db with
  | nil => rfl
  | cons e rest ih =>
      by_cases he : e.1 = k
      · simp [touchLastUsed, he, mapGet, Ne.symm h]
      · by_cases hep : e.1 = kp
        · simp [touchLastUsed, he, mapGet, hep, h]
        · simp [touchLastUsed, he, mapGet, hep, ih]

/-- C10: `validateFaceHash` returns `valid = true` exactly when a record
for the user exists and the comparison of the stored digest with the input
digest is at or above the threshold; on a valid result the only change to
the store is that record's `lastUsed` timestamp (digest, metadata,
`createdAt` and all other records are untouched), and on a not-found or
below-threshold result the store is completely unchanged.  The default
threshold is `0.8`. -/
theorem validateFaceHash_spec (db : FaceDb) (userId inputHash : String) (t : ℚ)
    (now : String) :
    ((validateFaceHash db userId inputHash t now).1.valid = true ↔
       ∃ rec, getFaceHash db userId = some rec ∧
         ∃ q : ℚ, compareHashes rec.hash inputHash = some q ∧ t ≤ q)
    ∧ ((validateFaceHash db userId inputHash t now).1.valid = false →
        (validateFaceHash db userId inputHash t now).2 = db)
    ∧ (∀ k, k ≠ userId →
        mapGet (validateFaceHash db userId inputHash t now).2 k = mapGet db k)
    ∧ (∀ rec, getFaceHash db userId = some rec →
        (validateFaceHash db userId inputHash t now).1.valid = true →
        mapGet (validateFaceHash db userId inputHash t now).2 userId =
          some ⟨rec.userId, rec.hash, rec.metadata, rec.createdAt, now⟩)
    ∧ validateFaceHashDefault db userId inputHash now =
        validateFaceHash db userId inputHash (4 / 5) now := by
  cases hget : mapGet db userId with
  | none =>
      refine ⟨?_, fun _ => ?_, fun k hk => ?_, fun rec hrec hval => ?_, rfl⟩
      · constructor
        · intro hv
          simp [validateFaceHash, hget, ValidationResult.valid] at hv
        · rintro ⟨rec, hrec, -⟩
          simp only [getFaceHash] at hrec
          rw [hget] at hrec
          exact Option.noConfusion hrec
      · simp [validateFaceHash, hget]
      · simp [validateFaceHash, hget]
      · simp only [getFaceHash] at hrec
        rw [hget] at hrec
        exact Option.noConfusion hrec
  | some stored =>
      cases hbv : simGE (compareHashes stored.hash inputHash) t with
      | false =>
          refine ⟨?_, fun _ => ?_, fun k hk => ?_, fun rec hrec hval => ?_, rfl⟩
          · constructor
            · intro hv
              simp only [validateFaceHash, hget, ValidationResult.valid] at hv
              rw [hbv] at hv
              exact Bool.noConfusion hv
            · rintro ⟨rec, hrec, q, hq, hle⟩
              simp only [getFaceHash] at hrec
              rw [hget] at hrec
              obtain rfl := Option.some.inj hrec
              have hT := (simGE_true_iff (compareHashes stored.hash inputHash) t).mpr
                ⟨q, hq, hle⟩
              rw [hbv] at hT
              exact Bool.noConfusion hT
          · simp [validateFaceHash, hget, hbv]
          · simp [validateFaceHash, hget, hbv]
          · simp only [validateFaceHash, hget, ValidationResult.valid] at hval
            rw [hbv] at hval
            exact Bool.noConfusion hval
      | true =>
          refine ⟨?_, fun hfalse => ?_, fun k hk => ?_, fun rec hrec hval => ?_, rfl⟩
          · constructor
            · intro _
              refine ⟨stored, ?_, (simGE_true_iff _ _).mp hbv⟩
              simp only [getFaceHash]
              rw [hget]
            · intro _
              simp only [validateFaceHash, hget, ValidationResult.valid]
              exact hbv
          · simp only [validateFaceHash, hget, ValidationResult.valid] at hfalse
            rw [hbv] at hfalse
            exact Bool.noConfusion hfalse
          · simp only [validateFaceHash, hget, hbv]
            simp only [if_true]
            exact mapGet_touch_other db userId k now hk
          · simp only [getFaceHash] at hrec
            rw [hget] at hrec
            obtain rfl := Option.some.inj hrec
            simp only [validateFaceHash, hget, hbv]
            simp only [if_true]
            exact mapGet_touch_self db userId now stored hget

/-- Witness for C10: on a one-record store, validating the matching digest
succeeds and updates only `lastUsed` (from `"t0"` to `"t1"`). -/
theorem validateFaceHash_spec_witness :
    getFaceHash [("u", (⟨"u", "ab", [], "t0", "t0"⟩ : FaceRecord))] "u" =
        some ⟨"u", "ab", [], "t0", "t0"⟩
    ∧ (validateFaceHash [("u", (⟨"u", "ab", [], "t0", "t0"⟩ : FaceRecord))]
        "u" "ab" (4 / 5) "t1").1.valid = true
    ∧ mapGet (validateFaceHash [("u", (⟨"u", "ab", [], "t0", "t0"⟩ : FaceRecord))]
        "u" "ab" (4 / 5) "t1").2 "u" = some ⟨"u", "ab", [], "t0", "t1"⟩ := by
  have hrec : getFaceHash [("u", (⟨"u", "ab", [], "t0", "t0"⟩ : FaceRecord))] "u" =
      some ⟨"u", "ab", [], "t0", "t0"⟩ := rfl
  have hval : (validateFaceHash [("u", (⟨"u", "ab", [], "t0", "t0"⟩ : FaceRecord))]
      "u" "ab" (4 / 5) "t1").1.valid = true := by
    norm_num [validateFaceHash, mapGet, compareHashes, jsDiv, countMatches, simGE,
      ValidationResult.valid, show ("ab" : String).length = 2 from rfl]
  exact ⟨hrec, hval,
    (validateFaceHash_spec [("u", ⟨"u", "ab", [], "t0", "t0"⟩)] "u" "ab" (4 / 5) "t1").2.2.2.1
      ⟨"u", "ab", [], "t0", "t0"⟩ hrec hval⟩

/-- Witness for C8 at a concrete call (`"joao"`, empty store). -/
theorem noFace_surfaces_witness :
    registerUser refPrims [] "joao" none [] "t0" = (Except.error noFaceMsg, ([] : FaceDb))
    ∧ validateUser refPrims [] "joao" none "t0" = (Except.error noFaceMsg, ([] : FaceDb)) :=
  noFace_surfaces refPrims [] "joao" [] "t0"

/-- Witness for C9 at the concrete descriptor `[0.1, -0.2, 0.3]` (the
exact rational values of its float32 entries). -/
theorem generateSimpleHash_structure_witness :
    ∃ pre suf : String,
      generateSimpleHash refPrims
          [13421773 / 134217728, -13421773 / 67108864, 5033165 / 16777216] = pre ++ suf
      ∧ pre = padStart (natToHex (rollingHash (descriptorString refPrims
          [13421773 / 134217728, -13421773 / 67108864, 5033165 / 16777216]).data).natAbs) 8 '0'
      ∧ suf = String.join (([13421773 / 134217728, -13421773 / 67108864,
          (5033165 : ℚ) / 16777216].take 16).map (valueSuffix refPrims))
      ∧ pre.length = 8
      ∧ (∀ ch ∈ pre.data, ch ∈ ("0123456789abcdef").data)
      ∧ generateSimpleHash refPrims
          [13421773 / 134217728, -13421773 / 67108864, 5033165 / 16777216] =
          generateSimpleHash refPrims
            [13421773 / 134217728, -13421773 / 67108864, 5033165 / 16777216] :=
  generateSimpleHash_structure refPrims
    [13421773 / 134217728, -13421773 / 67108864, 5033165 / 16777216]
